import Mathlib

/-!
Shallow embedding of the core utilities of the Debug-Me repository:
the retry/fallback async-control-flow helpers (`retryOperation`,
`withFallback` in `src/errors/try-catch.js`) and the async operation
tracker (`createTrackedPromise` in `src/async/promises.js`).

Deferred operations are modelled as functions from the invocation index
to an `Except` outcome (`Except.error` = the promise rejects,
`Except.ok` = it fulfills).  Executors additionally produce an event
trace recording each invocation, settlement and backoff wait, so that
invocation counts and delays are derived from the trace rather than
asserted.
-/

namespace DebugMe

/-- The fixed backoff configuration constant: the source waits
`setTimeout(resolve, 100 * attempt)` between attempts. -/
def baseDelay : Nat := 100

/-- Result of `retryOperation`: a returned value, the thrown
`Operation failed after ${maxRetries} attempts: ${error.message}` error
(carrying the reported attempt count and the most recent failure
reason), or `undefined` when the `while` loop never runs. -/
inductive RetryResult (ε α : Type) where
  | success (value : α)
  | exhausted (attempts : Nat) (lastReason : ε)
  | undefinedValue
deriving Repr, DecidableEq

/-- Events of one `retryOperation` run: the operation being invoked
(with its 0-based invocation index), a settlement of that invocation,
and a backoff wait of the given duration. -/
inductive RetryEvent (ε α : Type) where
  | invoked (index : Nat)
  | settled (outcome : Except ε α)
  | waited (delay : Nat)

/-- Loop body of `retryOperation`, translated from
`src/errors/try-catch.js` lines 274-301.  `attempt` starts at 0 and
counts failed invocations; the loop runs `while (attempt < maxRetries)`.
On success the value is returned at once; on failure `attempt` is
incremented, and if `attempt >= maxRetries` the run fails carrying
`maxRetries` as the reported attempt count and the last failure reason,
otherwise the run waits `baseDelay * attempt` and iterates.  `fuel`
bounds the structural recursion; each iteration raises `attempt` by
one, so `maxRetries - attempt` fuel always suffices and the fuel-0 exit
coincides with the loop guard failing. -/
def retryGo (op : Nat → Except ε α) (maxRetries : Nat) :
    Nat → Nat → RetryResult ε α × List (RetryEvent ε α)
  | _, 0 => (.undefinedValue, [])
  | attempt, _fuel + 1 =>
    if attempt < maxRetries then
      match op attempt with
      | .ok result => (.success result, [.invoked attempt, .settled (.ok result)])
      | .error e =>
        if attempt + 1 ≥ maxRetries then
          (.exhausted maxRetries e, [.invoked attempt, .settled (.error e)])
        else
          let rest := retryGo op maxRetries (attempt + 1) _fuel
          (rest.1,
            .invoked attempt :: .settled (.error e) ::
              .waited (baseDelay * (attempt + 1)) :: rest.2)
    else (.undefinedValue, [])

/-- `retryOperation(operation, maxRetries)`: run the retry loop from
`attempt = 0`.  The loop makes at most `maxRetries` iterations, so
`maxRetries` fuel is exact. -/
def retryOperation (op : Nat → Except ε α) (maxRetries : Nat) :
    RetryResult ε α × List (RetryEvent ε α) :=
  retryGo op maxRetries 0 maxRetries

/-- Number of times the operation was invoked during a run. -/
def invocationCount (trace : List (RetryEvent ε α)) : Nat :=
  trace.countP fun e => match e with | .invoked _ => true | _ => false

/-- The backoff waits of a run, in order. -/
def waitedDelays (trace : List (RetryEvent ε α)) : List Nat :=
  trace.filterMap fun e => match e with | .waited d => some d | _ => none

example :
    (retryOperation (fun _ => Except.error "boom") 3).1
      = RetryResult.exhausted (α := String) 3 "boom" := by rfl

example :
    invocationCount (retryOperation (fun _ => Except.error (α := String) "boom") 3).2 = 3 := by
  rfl

example :
    waitedDelays (retryOperation (fun _ => Except.error (α := String) "boom") 3).2
      = [100, 200] := by rfl

example :
    (retryOperation (fun i => if i < 2 then Except.error "e" else Except.ok "v") 3).1
      = RetryResult.success "v" := by rfl

/-- Result of `withFallback`: a returned value, or the thrown
`Both operations failed. Primary: ..., Fallback: ...` error carrying
both underlying failure reasons in primary-then-fallback order. -/
inductive FallbackResult (ε α : Type) where
  | value (v : α)
  | bothFailed (primaryReason fallbackReason : ε)
deriving Repr, DecidableEq

/-- Events of one `withFallback` run, in program order. -/
inductive FallbackEvent (ε α : Type) where
  | primaryInvoked
  | primarySettled (outcome : Except ε α)
  | fallbackInvoked
  | fallbackSettled (outcome : Except ε α)

/-- `withFallback(primaryOperation, fallbackOperation)`, translated from
`src/errors/try-catch.js` lines 309-322: `await primaryOperation()`; on
success return its value; on failure `await fallbackOperation()`; on
success return its value; on failure throw an error carrying both
failure reasons, primary first.  Each operation is a thunk invoked at
the point the corresponding `Invoked` event is recorded. -/
def withFallback (primaryOperation fallbackOperation : Unit → Except ε α) :
    FallbackResult ε α × List (FallbackEvent ε α) :=
  match primaryOperation () with
  | .ok v => (.value v, [.primaryInvoked, .primarySettled (.ok v)])
  | .error primaryError =>
    match fallbackOperation () with
    | .ok v =>
        (.value v,
          [.primaryInvoked, .primarySettled (.error primaryError),
            .fallbackInvoked, .fallbackSettled (.ok v)])
    | .error fallbackError =>
        (.bothFailed primaryError fallbackError,
          [.primaryInvoked, .primarySettled (.error primaryError),
            .fallbackInvoked, .fallbackSettled (.error fallbackError)])

/-- How many times the primary operation was invoked in a run. -/
def primaryInvocations (trace : List (FallbackEvent ε α)) : Nat :=
  trace.countP fun e => match e with | .primaryInvoked => true | _ => false

/-- How many times the fallback operation was invoked in a run. -/
def fallbackInvocations (trace : List (FallbackEvent ε α)) : Nat :=
  trace.countP fun e => match e with | .fallbackInvoked => true | _ => false

example :
    (withFallback (fun _ => Except.error "A") (fun _ => Except.error (α := String) "B")).1
      = FallbackResult.bothFailed "A" "B" := by rfl

example :
    fallbackInvocations
      (withFallback (fun _ => Except.ok (ε := String) "P") (fun _ => Except.ok "F")).2 = 0 := by
  rfl

/-- A completed-operation record, as pushed onto
`this.completedOperations` by the settlement handlers in
`createTrackedPromise`: `{name, status: "fulfilled", result}` or
`{name, status: "rejected", error}`. -/
inductive CompletedRecord (ε α : Type) where
  | fulfilled (name : String) (result : α)
  | rejected (name : String) (error : ε)
deriving Repr, DecidableEq

/-- The name field of a completed record. -/
def CompletedRecord.name : CompletedRecord ε α → String
  | .fulfilled n _ => n
  | .rejected n _ => n

/-- The tracker state of one `AsyncDebugging` instance:
`this.pendingOperations` (a JS `Set`, modelled as a duplicate-free list
in insertion order) and `this.completedOperations` (an array). -/
structure TrackerState (ε α : Type) where
  pendingOperations : List String
  completedOperations : List (CompletedRecord ε α)
deriving Repr, DecidableEq

/-- The constructor state: `new Set()` and `[]`
(`src/async/promises.js` lines 9-13). -/
def initialTracker : TrackerState ε α := ⟨[], []⟩

/-- JS `Set.prototype.add`: append the element unless present. -/
def setAdd (s : List String) (name : String) : List String :=
  if name ∈ s then s else s ++ [name]

/-- JS `Set.prototype.delete`: remove the element. -/
def setDelete (s : List String) (name : String) : List String :=
  s.filter fun n => n ≠ name

/-- The record the settlement handlers push: the `.then` handler pushes
a `fulfilled` record with the result, the `.catch` handler a `rejected`
record with the error. -/
def mkRecord (name : String) : Except ε α → CompletedRecord ε α
  | .ok result => .fulfilled name result
  | .error e => .rejected name e

/-- The registration step of `createTrackedPromise`:
`this.pendingOperations.add(name)`. -/
def registerName (s : TrackerState ε α) (name : String) : TrackerState ε α :=
  { s with pendingOperations := setAdd s.pendingOperations name }

/-- The settlement handlers attached by `createTrackedPromise`
(`promise.then(...).catch(...)`, `src/async/promises.js` lines
561-579): on either outcome delete `name` from the pending set and
push the completed record, then re-surface the outcome unchanged
(`return result` / `throw error`). -/
def settleTracked (s : TrackerState ε α) (name : String) (outcome : Except ε α) :
    TrackerState ε α × Except ε α :=
  ({ pendingOperations := setDelete s.pendingOperations name,
     completedOperations := s.completedOperations ++ [mkRecord name outcome] },
   outcome)

/-- `createTrackedPromise(name, promiseFactory)`
(`src/async/promises.js` lines 557-580): the factory is invoked FIRST;
if it throws (outer `Except.error`) the exception propagates and the
state returned is the incoming state untouched — `add(name)` is never
reached.  If it returns a promise (whose eventual settlement is the
inner `Except`), `name` is added to the pending set and the pending
settlement — to be processed by `settleTracked` — is handed back. -/
def createTrackedPromise (s : TrackerState ε α) (name : String)
    (promiseFactory : Unit → Except ε (Except ε α)) :
    TrackerState ε α × Except ε (String × Except ε α) :=
  match promiseFactory () with
  | .error e => (s, .error e)
  | .ok pending => (registerName s name, .ok (name, pending))

/-- One point event of a tracking session: a registration performed by
`createTrackedPromise`, or the settlement of a tracked operation. -/
inductive TrackerEvent (ε α : Type) where
  | register (name : String)
  | settle (name : String) (outcome : Except ε α)

/-- Apply one session event to the tracker state. -/
def trackerStep (s : TrackerState ε α) : TrackerEvent ε α → TrackerState ε α
  | .register name => registerName s name
  | .settle name outcome => (settleTracked s name outcome).1

/-- Run a tracking session from a given state. -/
def runTracker (s : TrackerState ε α) (events : List (TrackerEvent ε α)) :
    TrackerState ε α :=
  events.foldl trackerStep s

/-- Names appearing in the completed sequence. -/
def completedNames (s : TrackerState ε α) : List String :=
  s.completedOperations.map CompletedRecord.name

/-- The names registered by a session's events, in order. -/
def registeredNames (events : List (TrackerEvent ε α)) : List String :=
  events.filterMap fun e => match e with | .register n => some n | _ => none

/-- A session is valid when no name is registered twice (nor re-registered
after settling) and every settlement targets a still-pending name. -/
def validRun (s : TrackerState ε α) : List (TrackerEvent ε α) → Bool
  | [] => true
  | e :: rest =>
    match e with
    | .register n =>
        decide (n ∉ s.pendingOperations) && decide (n ∉ completedNames s)
          && validRun (trackerStep s e) rest
    | .settle n _ =>
        decide (n ∈ s.pendingOperations) && validRun (trackerStep s e) rest

/-- The record a settle event appends; register events append nothing. -/
def settledRecord : TrackerEvent ε α → Option (CompletedRecord ε α)
  | .settle n outcome => some (mkRecord n outcome)
  | .register _ => none

example :
    runTracker (initialTracker (ε := String) (α := String))
      [.register "a", .settle "a" (.ok "v")]
      = ⟨[], [.fulfilled "a" "v"]⟩ := by rfl

example :
    validRun (initialTracker (ε := String) (α := String))
      [.register "a", .register "b", .settle "b" (.error "e"), .settle "a" (.ok "v")]
      = true := by rfl

section RetryLemmas

variable {ε α : Type}

/-- Against an operation that fails on every invocation, the retry loop
started at any `attempt < maxRetries` (with sufficient fuel) terminates
in the exhausted state carrying `maxRetries` as the attempt count and
the failure reason of the final (index `maxRetries - 1`) invocation,
after `maxRetries - attempt` further invocations, waiting
`baseDelay * j` after the `j`-th failure for every non-final failure. -/
theorem retryGo_allFail (e : Nat → ε) (m : Nat) (fuel : Nat) :
    ∀ attempt, attempt < m → m - attempt ≤ fuel →
      (retryGo (fun i => Except.error (α := α) (e i)) m attempt fuel).1
          = RetryResult.exhausted m (e (m - 1))
        ∧ invocationCount (retryGo (fun i => Except.error (α := α) (e i)) m attempt fuel).2
            = m - attempt
        ∧ waitedDelays (retryGo (fun i => Except.error (α := α) (e i)) m attempt fuel).2
            = (List.range' (attempt + 1) (m - 1 - attempt)).map (fun j => baseDelay * j) := by
  induction fuel with
  | zero => intro attempt hlt hfuel; omega
  | succ fuel ih =>
    intro attempt hlt hfuel
    by_cases hlast : attempt + 1 ≥ m
    · have hm : m - 1 = attempt := by omega
      have hm2 : m - attempt = 1 := by omega
      have hm3 : m - 1 - attempt = 0 := by omega
      simp [retryGo, hlt, hlast, hm, hm2, hm3, invocationCount, waitedDelays]
    · have hrec := ih (attempt + 1) (by omega) (by omega)
      have hr : m - 1 - attempt = (m - 1 - (attempt + 1)) + 1 := by omega
      simp only [retryGo, if_pos hlt, if_neg hlast]
      refine ⟨hrec.1, ?_, ?_⟩
      · simp [invocationCount, List.countP_cons] at hrec ⊢
        omega
      · simp only [waitedDelays, List.filterMap_cons] at hrec ⊢
        rw [hr, List.range']
        simp [hrec.2.2, waitedDelays]

/-- Against an operation that fails on exactly its first `k`
invocations and then succeeds with `v`, the retry loop started at any
`attempt ≤ k < maxRetries` returns `v` after `k + 1 - attempt` further
invocations. -/
theorem retryGo_succeedAt (op : Nat → Except ε α) (m k : Nat) (v : α)
    (hfail : ∀ i, i < k → ∃ err, op i = Except.error err)
    (hsucc : op k = Except.ok v) (fuel : Nat) :
    ∀ attempt, attempt ≤ k → k < m → m - attempt ≤ fuel →
      (retryGo op m attempt fuel).1 = RetryResult.success v
        ∧ invocationCount (retryGo op m attempt fuel).2 = k + 1 - attempt := by
  induction fuel with
  | zero => intro attempt hak hkm hfuel; omega
  | succ fuel ih =>
    intro attempt hak hkm hfuel
    have hlt : attempt < m := by omega
    rcases Nat.eq_or_lt_of_le hak with heq | hltk
    · subst heq
      simp [retryGo, hlt, hsucc, invocationCount, List.countP_cons]
    · obtain ⟨err, herr⟩ := hfail attempt hltk
      have hnotlast : ¬ attempt + 1 ≥ m := by omega
      have hrec := ih (attempt + 1) (by omega) hkm (by omega)
      simp only [retryGo, if_pos hlt, herr, if_neg hnotlast]
      refine ⟨hrec.1, ?_⟩
      simp [invocationCount, List.countP_cons] at hrec ⊢
      omega

/-- The retry loop makes at most `fuel` invocations. -/
theorem invocationCount_retryGo_le (op : Nat → Except ε α) (m : Nat) (fuel : Nat) :
    ∀ attempt, invocationCount (retryGo op m attempt fuel).2 ≤ fuel := by
  induction fuel with
  | zero => intro attempt; simp [retryGo, invocationCount]
  | succ fuel ih =>
    intro attempt
    by_cases hlt : attempt < m
    · rcases hop : op attempt with err | res
      · by_cases hlast : attempt + 1 ≥ m
        · simp [retryGo, hlt, hop, hlast, invocationCount, List.countP_cons]
        · have := ih (attempt + 1)
          simp only [retryGo, if_pos hlt, hop, if_neg hlast]
          simp [invocationCount, List.countP_cons] at this ⊢
          omega
      · simp [retryGo, hlt, hop, invocationCount, List.countP_cons]
    · simp [retryGo, hlt, invocationCount]

/-- The waits of any retry-loop run started at `attempt` form the
linear sequence `baseDelay * (attempt + 1), baseDelay * (attempt + 2), …`
of some length. -/
theorem waitedDelays_retryGo (op : Nat → Except ε α) (m : Nat) (fuel : Nat) :
    ∀ attempt, ∃ len,
      waitedDelays (retryGo op m attempt fuel).2
        = (List.range' (attempt + 1) len).map (fun j => baseDelay * j) := by
  induction fuel with
  | zero => intro attempt; exact ⟨0, by simp [retryGo, waitedDelays]⟩
  | succ fuel ih =>
    intro attempt
    by_cases hlt : attempt < m
    · rcases hop : op attempt with err | res
      · by_cases hlast : attempt + 1 ≥ m
        · exact ⟨0, by simp [retryGo, hlt, hop, hlast, waitedDelays]⟩
        · obtain ⟨len, hlen⟩ := ih (attempt + 1)
          refine ⟨len + 1, ?_⟩
          simp only [retryGo, if_pos hlt, hop, if_neg hlast]
          simp only [waitedDelays, List.filterMap_cons] at hlen ⊢
          rw [List.range']
          simp [hlen, waitedDelays]
      · exact ⟨0, by simp [retryGo, hlt, hop, waitedDelays]⟩
    · exact ⟨0, by simp [retryGo, hlt, waitedDelays]⟩

end RetryLemmas

section TrackerLemmas

variable {ε α : Type}

/-- The name of the record a settlement pushes is the settled name. -/
@[simp] theorem mkRecord_name (name : String) (outcome : Except ε α) :
    (mkRecord name outcome).name = name := by
  cases outcome <;> rfl

@[simp] theorem completedNames_settle (s : TrackerState ε α) (name : String)
    (outcome : Except ε α) :
    completedNames (trackerStep s (.settle name outcome)) = completedNames s ++ [name] := by
  simp [trackerStep, settleTracked, completedNames]

@[simp] theorem completedNames_register (s : TrackerState ε α) (name : String) :
    completedNames (trackerStep s (.register name)) = completedNames s := by
  simp [trackerStep, registerName, completedNames]

/-- Any initial segment of a valid tracking session is itself valid. -/
theorem validRun_take (events : List (TrackerEvent ε α)) :
    ∀ (s : TrackerState ε α) (k : Nat), validRun s events = true →
      validRun s (events.take k) = true := by
  induction events with
  | nil => intro s k _; simp [validRun]
  | cons e rest ih =>
    intro s k hv
    cases k with
    | zero => simp [validRun]
    | succ k =>
      simp only [List.take_succ_cons]
      cases e with
      | register n =>
        simp only [validRun, Bool.and_eq_true] at hv ⊢
        exact ⟨hv.1, ih _ k hv.2⟩
      | settle n outcome =>
        simp only [validRun, Bool.and_eq_true] at hv ⊢
        exact ⟨hv.1, ih _ k hv.2⟩

/-- Invariant preservation along a valid session: if the pending set
and the completed names are disjoint in the starting state, they stay
disjoint, and the names present in the union grow by exactly the names
the session registers. -/
theorem validRun_invariant (events : List (TrackerEvent ε α)) :
    ∀ s : TrackerState ε α, validRun s events = true →
      (∀ n, ¬(n ∈ s.pendingOperations ∧ n ∈ completedNames s)) →
      (∀ n, ¬(n ∈ (runTracker s events).pendingOperations
          ∧ n ∈ completedNames (runTracker s events)))
        ∧ (∀ n, (n ∈ (runTracker s events).pendingOperations
              ∨ n ∈ completedNames (runTracker s events))
            ↔ (n ∈ s.pendingOperations ∨ n ∈ completedNames s
                ∨ n ∈ registeredNames events)) := by
  induction events with
  | nil =>
    intro s _ hdisj
    refine ⟨hdisj, fun n => ?_⟩
    simp [runTracker, registeredNames]
  | cons e rest ih =>
    intro s hv hdisj
    have hrun : runTracker s (e :: rest) = runTracker (trackerStep s e) rest := rfl
    cases e with
    | register n =>
      simp only [validRun, Bool.and_eq_true, decide_eq_true_eq] at hv
      obtain ⟨⟨hnp, hnc⟩, hv⟩ := hv
      have hstep : (trackerStep s (.register n)).pendingOperations
          = s.pendingOperations ++ [n] := by
        simp [trackerStep, registerName, setAdd, hnp]
      have hdisj' : ∀ m, ¬(m ∈ (trackerStep s (.register n)).pendingOperations
          ∧ m ∈ completedNames (trackerStep s (.register n))) := by
        intro m hm
        rw [hstep, completedNames_register] at hm
        rcases List.mem_append.mp hm.1 with h | h
        · exact hdisj m ⟨h, hm.2⟩
        · simp at h; subst h; exact hnc hm.2
      obtain ⟨ih1, ih2⟩ := ih (trackerStep s (.register n)) hv hdisj'
      rw [hrun]
      refine ⟨ih1, fun m => ?_⟩
      rw [ih2 m, hstep, completedNames_register]
      simp only [registeredNames, List.filterMap_cons]
      simp [List.mem_append]
      tauto
    | settle n outcome =>
      simp only [validRun, Bool.and_eq_true, decide_eq_true_eq] at hv
      obtain ⟨hnp, hv⟩ := hv
      have hstep : (trackerStep s (.settle n outcome)).pendingOperations
          = s.pendingOperations.filter (fun x => x ≠ n) := by
        simp [trackerStep, settleTracked, setDelete]
      have hdisj' : ∀ m, ¬(m ∈ (trackerStep s (.settle n outcome)).pendingOperations
          ∧ m ∈ completedNames (trackerStep s (.settle n outcome))) := by
        intro m hm
        rw [hstep, completedNames_settle] at hm
        have h1 := List.mem_filter.mp hm.1
        rcases List.mem_append.mp hm.2 with h | h
        · exact hdisj m ⟨h1.1, h⟩
        · simp at h
          subst h
          simp at h1
      obtain ⟨ih1, ih2⟩ := ih (trackerStep s (.settle n outcome)) hv hdisj'
      rw [hrun]
      refine ⟨ih1, fun m => ?_⟩
      rw [ih2 m, hstep, completedNames_settle]
      simp only [registeredNames, List.filterMap_cons]
      simp [List.mem_append, List.mem_filter]
      by_cases hmn : m = n
      · subst hmn; tauto
      · simp [hmn]

/-- Running a session only appends to the completed sequence: exactly
the records of its settlement events, in session order. -/
theorem runTracker_completed (events : List (TrackerEvent ε α)) :
    ∀ s : TrackerState ε α,
      (runTracker s events).completedOperations
        = s.completedOperations ++ events.filterMap settledRecord := by
  induction events with
  | nil => intro s; simp [runTracker]
  | cons e rest ih =>
    intro s
    have hrun : runTracker s (e :: rest) = runTracker (trackerStep s e) rest := rfl
    rw [hrun, ih]
    cases e with
    | register n => simp [trackerStep, registerName, settledRecord, List.filterMap_cons]
    | settle n outcome =>
      simp [trackerStep, settleTracked, settledRecord, List.filterMap_cons]

end TrackerLemmas

/-- C1: for every `maxRetries ≥ 1` and every operation that fails on
every invocation, `retryOperation` invokes the operation exactly
`maxRetries` times and then fails with the exhaustion error wrapping
the most recent failure reason and attempt count `maxRetries`; the
instance `maxRetries = 1` gives exactly one attempt, no retry, and
attempt count 1. -/
theorem retry_exhaustion_spec {ε α : Type} (m : Nat) (e : Nat → ε) (h : 1 ≤ m) :
    (retryOperation (fun i => Except.error (α := α) (e i)) m).1
        = RetryResult.exhausted m (e (m - 1))
      ∧ invocationCount (retryOperation (fun i => Except.error (α := α) (e i)) m).2 = m := by
  have hall := retryGo_allFail (α := α) e m m 0 (by omega) (by omega)
  exact ⟨hall.1, by simpa using hall.2.1⟩

/-- Witness for C1: `maxRetries = 3` against a constantly failing
operation gives 3 invocations and the exhaustion failure. -/
theorem retry_exhaustion_spec_witness :
    (1 : Nat) ≤ 3
      ∧ ((retryOperation (fun _ => Except.error (α := String) "boom") 3).1
            = RetryResult.exhausted 3 "boom"
          ∧ invocationCount
              (retryOperation (fun _ => Except.error (α := String) "boom") 3).2 = 3) :=
  ⟨by decide, retry_exhaustion_spec 3 (fun _ => "boom") (by decide)⟩

/-- C2: for every `maxRetries ≥ 1` and every operation failing on its
first `k` invocations (`k < maxRetries`) and succeeding on invocation
`k + 1`, `retryOperation` returns that success value and invokes the
operation exactly `k + 1` times; an always-succeeding operation
(`k = 0`) is invoked exactly once. -/
theorem retry_eventual_success_spec {ε α : Type} (op : Nat → Except ε α) (m k : Nat)
    (v : α) (hk : k < m)
    (hfail : ∀ i, i < k → ∃ err, op i = Except.error err)
    (hsucc : op k = Except.ok v) :
    (retryOperation op m).1 = RetryResult.success v
      ∧ invocationCount (retryOperation op m).2 = k + 1 := by
  have hgo := retryGo_succeedAt op m k v hfail hsucc m 0 (by omega) hk (by omega)
  exact ⟨hgo.1, by simpa using hgo.2⟩

/-- Witness for C2: an operation failing twice then succeeding, with
`maxRetries = 3`, returns the success value after 3 invocations. -/
theorem retry_eventual_success_spec_witness :
    (2 : Nat) < 3
      ∧ ((retryOperation (fun i => if i < 2 then Except.error "e" else Except.ok "v") 3).1
            = RetryResult.success "v"
          ∧ invocationCount
              (retryOperation
                (fun i => if i < 2 then Except.error "e" else Except.ok "v") 3).2
              = 2 + 1) :=
  ⟨by decide,
    retry_eventual_success_spec _ 3 2 "v" (by decide)
      (fun i hi => ⟨"e", if_pos hi⟩) rfl⟩

/-- C3: whenever the primary operation fails, `withFallback` invokes
the fallback exactly once, strictly after the primary has settled as
failed (visible in the event trace); if the fallback succeeds its value
is returned (the primary reason is not part of the result), and if the
fallback also fails the run fails with the composite failure carrying
both reasons in primary-then-fallback order. -/
theorem fallback_on_failure_spec {ε α : Type}
    (primary fallback : Unit → Except ε α) (pe : ε)
    (hp : primary () = Except.error pe) :
    (withFallback primary fallback).2
        = [.primaryInvoked, .primarySettled (.error pe),
            .fallbackInvoked, .fallbackSettled (fallback ())]
      ∧ fallbackInvocations (withFallback primary fallback).2 = 1
      ∧ (withFallback primary fallback).1
          = match fallback () with
            | .ok v => FallbackResult.value v
            | .error fe => FallbackResult.bothFailed pe fe := by
  rcases hf : fallback () with fe | fv
  · simp [withFallback, hp, hf, fallbackInvocations, List.countP_cons]
  · simp [withFallback, hp, hf, fallbackInvocations, List.countP_cons]

/-- Witness for C3: primary failing with "A" and fallback failing with
"B" give the composite failure carrying "A" then "B". -/
theorem fallback_on_failure_spec_witness :
    (withFallback (fun _ => Except.error "A")
          (fun _ => Except.error (α := String) "B")).2
        = [.primaryInvoked, .primarySettled (.error "A"),
            .fallbackInvoked, .fallbackSettled (.error "B")]
      ∧ fallbackInvocations
          (withFallback (fun _ => Except.error "A")
            (fun _ => Except.error (α := String) "B")).2 = 1
      ∧ (withFallback (fun _ => Except.error "A")
            (fun _ => Except.error (α := String) "B")).1
          = FallbackResult.bothFailed "A" "B" :=
  fallback_on_failure_spec _ _ "A" rfl

/-- C4: whenever the primary operation succeeds, `withFallback` returns
the primary's success value and the fallback operation is never
invoked. -/
theorem fallback_primary_wins_spec {ε α : Type}
    (primary fallback : Unit → Except ε α) (v : α)
    (hp : primary () = Except.ok v) :
    (withFallback primary fallback).1 = FallbackResult.value v
      ∧ (withFallback primary fallback).2 = [.primaryInvoked, .primarySettled (.ok v)]
      ∧ fallbackInvocations (withFallback primary fallback).2 = 0 := by
  simp [withFallback, hp, fallbackInvocations, List.countP_cons]

/-- Witness for C4: a primary succeeding with "P" wins and the fallback
is not invoked. -/
theorem fallback_primary_wins_spec_witness :
    (withFallback (fun _ => Except.ok (ε := String) "P") (fun _ => Except.ok "F")).1
        = FallbackResult.value "P"
      ∧ (withFallback (fun _ => Except.ok (ε := String) "P") (fun _ => Except.ok "F")).2
          = [.primaryInvoked, .primarySettled (.ok "P")]
      ∧ fallbackInvocations
          (withFallback (fun _ => Except.ok (ε := String) "P")
            (fun _ => Except.ok "F")).2 = 0 :=
  fallback_primary_wins_spec _ _ "P" rfl

/-- C5: in any valid tracking session (no name registered twice, every
settlement targeting a pending name), at every instant — i.e. after
every initial segment of the session's events — each registered name is
in exactly one of the pending set and the completed sequence: the
registered names are precisely the union, and the two are disjoint. -/
theorem tracker_exactly_one_spec {ε α : Type} (events : List (TrackerEvent ε α))
    (k : Nat) (hv : validRun initialTracker events = true) :
    (∀ n, n ∈ registeredNames (events.take k)
        ↔ (n ∈ (runTracker initialTracker (events.take k)).pendingOperations
            ∨ n ∈ completedNames (runTracker initialTracker (events.take k))))
      ∧ (∀ n, ¬(n ∈ (runTracker initialTracker (events.take k)).pendingOperations
            ∧ n ∈ completedNames (runTracker initialTracker (events.take k)))) := by
  have hvt := validRun_take events initialTracker k hv
  have hinv := validRun_invariant (events.take k) initialTracker hvt
    (by simp [initialTracker, completedNames])
  refine ⟨fun n => ?_, hinv.1⟩
  have h2 := hinv.2 n
  rw [show (initialTracker (ε := ε) (α := α)).pendingOperations = [] from rfl,
    show completedNames (initialTracker (ε := ε) (α := α)) = [] from rfl] at h2
  simp only [List.not_mem_nil, false_or] at h2
  exact h2.symm

/-- A sample tracking session: two registrations, then one settlement. -/
def sampleEvents : List (TrackerEvent String String) :=
  [.register "a", .register "b", .settle "a" (.ok "v")]

/-- Witness for C5 on the sample session, observed after all 3 events. -/
theorem tracker_exactly_one_spec_witness :
    validRun initialTracker sampleEvents = true
      ∧ ((∀ n, n ∈ registeredNames (sampleEvents.take 3)
            ↔ (n ∈ (runTracker initialTracker (sampleEvents.take 3)).pendingOperations
                ∨ n ∈ completedNames (runTracker initialTracker (sampleEvents.take 3))))
          ∧ (∀ n, ¬(n ∈ (runTracker initialTracker (sampleEvents.take 3)).pendingOperations
                ∧ n ∈ completedNames (runTracker initialTracker (sampleEvents.take 3))))) :=
  ⟨by decide, tracker_exactly_one_spec sampleEvents 3 (by decide)⟩

/-- C6: the settlement handler attached by `createTrackedPromise`
re-surfaces exactly the original outcome, unchanged, while in the same
step updating the bookkeeping: the name is deleted from the pending set
and the record — `fulfilled` with the original value, or `rejected`
with the original reason — is appended to the completed sequence.  The
handler is a total function: the tracker itself never fails. -/
theorem tracked_settle_passthrough_spec {ε α : Type} (s : TrackerState ε α)
    (name : String) (outcome : Except ε α) :
    (settleTracked s name outcome).2 = outcome
      ∧ (settleTracked s name outcome).1.pendingOperations
          = setDelete s.pendingOperations name
      ∧ (settleTracked s name outcome).1.completedOperations
          = s.completedOperations ++ [mkRecord name outcome]
      ∧ (∀ v : α, mkRecord (ε := ε) name (Except.ok v)
          = CompletedRecord.fulfilled name v)
      ∧ (∀ e : ε, mkRecord (α := α) name (Except.error e)
          = CompletedRecord.rejected name e) :=
  ⟨rfl, rfl, rfl, fun _ => rfl, fun _ => rfl⟩

/-- C7: the completed sequence is append-only and lists exactly the
settlement events' records in settlement order (registration events
append nothing); concretely, three operations registered in the order
op30, op10, op20 and settling in ascending-delay order op10, op20, op30
(two fulfilled, one rejected) leave an empty pending set and the three
records in settlement order with their original statuses and
payloads. -/
theorem completed_settlement_order_spec :
    (∀ (ε α : Type) (s : TrackerState ε α) (events : List (TrackerEvent ε α)),
        (runTracker s events).completedOperations
          = s.completedOperations ++ events.filterMap settledRecord)
      ∧ runTracker initialTracker
          [TrackerEvent.register "op30", .register "op10", .register "op20",
            .settle "op10" (Except.ok "r10"), .settle "op20" (Except.error "e20"),
            .settle "op30" (Except.ok (ε := String) "r30")]
          = ⟨[], [CompletedRecord.fulfilled "op10" "r10",
                  CompletedRecord.rejected "op20" "e20",
                  CompletedRecord.fulfilled "op30" "r30"]⟩ :=
  ⟨fun _ _ s events => runTracker_completed events s, by decide⟩

/-- C8 counterexample: `retryOperation` against an always-failing
operation with `maxRetries = 2` invokes the operation twice, so the
claim that every deferred operation is invoked at most once per
executor call fails for `retryOperation`. -/
theorem retry_invokes_twice_cex :
    invocationCount
        (retryOperation (fun _ => Except.error (α := String) "e") 2).2 = 2
      ∧ ¬ invocationCount
            (retryOperation (fun _ => Except.error (α := String) "e") 2).2 ≤ 1 := by
  decide

/-- C8 amended: each operation supplied to `withFallback` is invoked at
most once per call (the primary exactly once, the fallback at most
once); the operation supplied to `retryOperation` is invoked at most
`maxRetries` times, which can exceed one. -/
theorem invocation_bounds_spec :
    (∀ (ε α : Type) (p f : Unit → Except ε α),
        primaryInvocations (withFallback p f).2 = 1
          ∧ fallbackInvocations (withFallback p f).2 ≤ 1)
      ∧ (∀ (ε α : Type) (op : Nat → Except ε α) (m : Nat),
          invocationCount (retryOperation op m).2 ≤ m) := by
  constructor
  · intro ε α p f
    rcases hp : p () with pe | pv
    · rcases hf : f () with fe | fv
      · simp [withFallback, hp, hf, primaryInvocations, fallbackInvocations,
          List.countP_cons]
      · simp [withFallback, hp, hf, primaryInvocations, fallbackInvocations,
          List.countP_cons]
    · simp [withFallback, hp, primaryInvocations, fallbackInvocations,
        List.countP_cons]
  · intro ε α op m
    exact invocationCount_retryGo_le op m m 0

/-- C9: the backoff constant is 100 time units; in every run of
`retryOperation` the waits form the increasing linear sequence
`baseDelay * 1, baseDelay * 2, …`, and against an always-failing
operation a wait of `baseDelay * j` occurs after the `j`-th failure for
every non-final failed attempt (`maxRetries - 1` waits in total). -/
theorem backoff_linear_spec :
    baseDelay = 100
      ∧ (∀ (ε α : Type) (op : Nat → Except ε α) (m : Nat), ∃ k,
          waitedDelays (retryOperation op m).2
            = (List.range' 1 k).map (fun j => baseDelay * j))
      ∧ (∀ (ε α : Type) (e : Nat → ε) (m : Nat),
          waitedDelays (retryOperation (fun i => Except.error (α := α) (e i)) m).2
            = (List.range' 1 (m - 1)).map (fun j => baseDelay * j)) := by
  refine ⟨rfl, ?_, ?_⟩
  · intro ε α op m
    simpa using waitedDelays_retryGo op m m 0
  · intro ε α e m
    cases m with
    | zero => simp [retryOperation, retryGo, waitedDelays]
    | succ m' =>
      simpa using (retryGo_allFail (α := α) e (m' + 1) (m' + 1) 0 (by omega) (by omega)).2.2

/-- C10: when the factory passed to `createTrackedPromise` throws
synchronously, the exception propagates to the caller and the tracker
state is returned completely untouched — the name is never added to the
pending set and nothing is appended to the completed sequence, because
the factory is invoked before the name is registered. -/
theorem factory_throw_spec {ε α : Type} (s : TrackerState ε α) (name : String)
    (promiseFactory : Unit → Except ε (Except ε α)) (e : ε)
    (h : promiseFactory () = Except.error e) :
    createTrackedPromise s name promiseFactory = (s, Except.error e) := by
  simp [createTrackedPromise, h]

/-- Witness for C10: a factory throwing "boom" on the fresh tracker. -/
theorem factory_throw_spec_witness :
    ((fun _ : Unit => Except.error (α := Except String String) "boom") ()
        = Except.error "boom")
      ∧ createTrackedPromise initialTracker "a"
          (fun _ : Unit => Except.error (α := Except String String) "boom")
          = (initialTracker, Except.error "boom") :=
  ⟨rfl, factory_throw_spec _ "a" _ "boom" rfl⟩

end DebugMe
